import Mathlib

/-!
# Verification of the xmlserde runtime mapping engine

A shallow embedding of the xmlserde XML (de)serialization engine.
Byte strings are modelled as `List Nat` (one `Nat` per byte); the streaming
XML event reader and writer of quick_xml are modelled as lists of events.
The code generated by the derive macros in `derives/src/de.rs` and
`derives/src/ser.rs` is embedded as interpreters parameterised by a schema
record that carries exactly the per-field information the macros bake into
the generated code (field kind, resolved names, arity, default presence,
`deny_unknown`, roots).
-/

namespace Xmlserde

/-- A byte string (`&[u8]` / `Vec<u8>` in the source). -/
abbrev Bytes := List Nat

/-- Convert an ASCII string literal to its byte list, for readable witnesses. -/
def byteStr (s : String) : Bytes := s.data.map (fun c => c.toNat)

/-- ASCII lower-casing of a single byte (`u8::to_ascii_lowercase`). -/
def asciiLowerByte (b : Nat) : Nat := if 65 ≤ b ∧ b ≤ 90 then b + 32 else b

/-- Source `str::to_ascii_lowercase`: byte-wise ASCII lower-casing. -/
def toAsciiLowercase (s : Bytes) : Bytes := s.map asciiLowerByte

/-- Source `eq_ignore_ascii_case` on byte slices: equal length and byte-wise equality
up to ASCII letter case. -/
def eqIgnoreAsciiCase (a b : Bytes) : Bool := toAsciiLowercase a == toAsciiLowercase b

/-- Source `impl XmlValue for bool`, `serialize` (src/lib.rs): `true ↦ "1"`, `false ↦ "0"`. -/
def boolXmlSerialize (b : Bool) : Bytes := if b then byteStr "1" else byteStr "0"

/-- Source `impl XmlValue for bool`, `deserialize` (src/lib.rs): lower-case the input,
accept `"1"`/`"true"` as `true` and `"0"`/`"false"` as `false`, anything else
is an error carrying the (lower-cased) input. -/
def boolXmlDeserialize (s : Bytes) : Except Bytes Bool :=
  let l := toAsciiLowercase s
  if l == byteStr "1" || l == byteStr "true" then .ok true
  else if l == byteStr "0" || l == byteStr "false" then .ok false
  else .error l

/-- Lexicographic comparison of byte strings (`Ord` on `&[u8]` in Rust). -/
def bytesCompare : Bytes → Bytes → Ordering
  | [], [] => .eq
  | [], _ :: _ => .lt
  | _ :: _, [] => .gt
  | a :: as_, b :: bs =>
    if a < b then .lt
    else if b < a then .gt
    else bytesCompare as_ bs

/-- Auxiliary loop of `slice::binary_search_by` (Rust core, the
`while size > 1` halving loop over `base` and `size`). -/
def rustBinarySearchLoop (cmp : Bytes → Ordering) (l : List Bytes)
    (base size : Nat) (fuel : Nat) : Nat :=
  match fuel with
  | 0 => base
  | fuel + 1 =>
    if size > 1 then
      let half := size / 2
      let mid := base + half
      let c := cmp (l.getD mid [])
      let base' := if c == .gt then base else mid
      rustBinarySearchLoop cmp l base' (size - half) fuel
    else base

/-- Source `slice::binary_search` on a `Vec<&[u8]>` for a target `t`
(as invoked by the generated untagged-struct branch in
`derives/src/de.rs`, `untag_structs_match_branch`): `cmp x = x.cmp(t)`;
returns `.ok idx` when found, `.error ins` with the insertion point
otherwise.  Faithful to Rust core's branchless implementation; on a
slice that is not sorted its result is well-defined but need not find
a contained element. -/
def rustBinarySearch (l : List Bytes) (t : Bytes) : Except Nat Nat :=
  if l.length == 0 then .error 0
  else
    let base := rustBinarySearchLoop (fun x => bytesCompare x t) l 0 l.length l.length
    let c := bytesCompare (l.getD base []) t
    if c == .eq then .ok base
    else .error (base + (if c == .lt then 1 else 0))

/-- Source `Vec::contains` by linear scan (the guard of the untagged-struct branch). -/
def listContainsBytes (l : List Bytes) (t : Bytes) : Bool := l.any (· == t)

/-- Apply `f` to the element at index `i` (identity when out of range). -/
def listModify (f : α → α) : Nat → List α → List α
  | _, [] => []
  | 0, a :: as_ => f a :: as_
  | n + 1, a :: as_ => a :: listModify f n as_

/-- Index of the first element satisfying `p` (the first matching arm of a
generated Rust `match`). -/
def listFindIdx (p : α → Bool) : List α → Option Nat
  | [] => none
  | a :: as_ => if p a then some 0 else (listFindIdx p as_).map (· + 1)

/-! ## XML events

quick_xml's pull events, with attribute lists already split into key/value
pairs.  End-of-stream (`Event::Eof`) is the end of the list; reader errors
(`Err(_)`) are not modelled — every branch of the engine treats them exactly
like `Eof` (break). -/

/-- An XML event (`quick_xml::events::Event`). -/
inductive Event where
  | start (name : Bytes) (attrs : List (Bytes × Bytes))
  | empty (name : Bytes) (attrs : List (Bytes × Bytes))
  | endTag (name : Bytes)
  | text (content : Bytes)
  deriving DecidableEq, Repr

/-- ASCII whitespace recognised by `str::trim` (restricted to the ASCII
subset, which is all the engine's byte-level tags can contain). -/
def isAsciiWhitespace (b : Nat) : Bool := b == 32 || b == 9 || b == 10 || b == 13

/-- Source `str::trim` on a byte string (ASCII whitespace). -/
def trimBytes (s : Bytes) : Bytes :=
  ((s.dropWhile isAsciiWhitespace).reverse.dropWhile isAsciiWhitespace).reverse

/-! ## Deserialization schema

The information `derives/src/de.rs` bakes into the generated
`XmlDeserialize::deserialize` for a record type: one descriptor per field,
bucketed exactly like `FieldsSummary::from_fields` (attrs, self-closed
children, children, untagged enums, untagged structs, text), plus the
container-level `roots` and `deny_unknown`. Names are the *resolved* names
(`Container::get_field_name`: explicit `name`, else first mapped name, else
the `rename_all`-converted identifier — resolution happens at macro
expansion time, so the schema carries the result). -/

/-- Collection arity of a field (`container::Generic`). -/
inductive DeArity where
  | scalar | optional | boxed | vec
  deriving DecidableEq, Repr

/-- Shape of an attribute field in the generated code
(`get_attr_branch`): `Option<T>`, plain with a `default` provider,
or plain required. -/
inductive AttrShape where
  | opt | withDefault | plain
  deriving DecidableEq, Repr

/-- An `Attribute` field: resolved primary tag, extra mapped tags
(`mapped_tags` in `get_attr_branch`), and shape. -/
structure AttrField where
  name : Bytes
  mapped : List Bytes
  shape : AttrShape
  deriving DecidableEq, Repr

/-- A `SelfClosedChild` (`sfc`) boolean field. -/
structure SfcField where
  name : Bytes
  deriving DecidableEq, Repr

/-- A `Child` field. -/
structure ChildField where
  name : Bytes
  arity : DeArity
  hasDefault : Bool
  deriving DecidableEq, Repr

/-- An untagged-enum field (`ty = "untag"` / `"untagged_enum"`): the nested
enum's `__get_children_tags()` list and whether the nested enum declares a
text variant (`__deserialize_from_text` returns `Some`). -/
structure UntagEnumField where
  tags : List Bytes
  arity : DeArity
  acceptsText : Bool
  deriving DecidableEq, Repr

/-- An untagged-struct field (`ty = "untagged_struct"`): the nested
struct's `__get_children_tags()` list (declaration order, not sorted). -/
structure UntagStructField where
  tags : List Bytes
  arity : DeArity
  hasDefault : Bool
  deriving DecidableEq, Repr

/-- The per-record deserialization schema. -/
structure DeSchema where
  roots : List Bytes
  denyUnknown : Bool
  attrs : List AttrField
  sfcs : List SfcField
  children : List ChildField
  untagEnums : List UntagEnumField
  untagStructs : List UntagStructField
  hasTextField : Bool
  textRequired : Bool
  deriving DecidableEq, Repr

/-! ## Deserialization state

Nested `deserialize` calls are abstracted as sub-tree captures: a nested
call consumes the events up to the `End` event matching its tag (exactly
what `Unparsed::deserialize` does, and what every generated deserializer
does to the stream) and its result is represented by the consumed
attributes and inner events. -/

/-- The captured content of one nested element. -/
structure Capture where
  attrs : List (Bytes × Bytes)
  inner : List Event
  deriving DecidableEq, Repr

/-- A value of an untagged-enum field: built from a matching tag or
(for a text variant) from a text node. -/
inductive UntagVal where
  | fromTag (tag : Bytes) (c : Capture)
  | fromText (t : Bytes)
  deriving DecidableEq, Repr

/-- Storage of one field during deserialization: a growing list for
`Vec` arity, an overwritable option otherwise. -/
inductive Slot (α : Type) where
  | many (vs : List α)
  | one (v : Option α)
  deriving DecidableEq, Repr

/-- Initial slot per arity (`get_fields_init`): `Vec::new()` for lists,
`None` otherwise. -/
def Slot.init (arity : DeArity) : Slot α :=
  if arity = .vec then .many [] else .one none

/-- Record one occurrence (`children_match_branch` /
`untag_enums_match_branch`): push for `Vec`, overwrite otherwise. -/
def Slot.record : DeArity → Slot α → α → Slot α
  | .vec, .many vs, a => .many (vs ++ [a])
  | .vec, .one _, a => .many [a]
  | .scalar, _, a => .one (some a)
  | .optional, _, a => .one (some a)
  | .boxed, _, a => .one (some a)

/-- Mutable state of the generated `deserialize` body, one slot per
declared field, in schema order. Attribute and text values are kept as the
raw bytes handed to the scalar parser (`XmlValue::deserialize` is
abstracted as the identity; its failure panics are outside the claims). -/
structure DeState where
  attrVals : List (Option Bytes)
  sfcVals : List Bool
  childVals : List (Slot Capture)
  untagEnumVals : List (Slot UntagVal)
  untagStructArrs : List (List (Bytes × Capture))
  textVal : Option Bytes
  deriving DecidableEq, Repr

/-- Fatal conditions of the generated code (all `panic!` in the source). -/
inductive DeError where
  | unexpectedRoot (tag : Bytes)
  | unknownField (name : Bytes)
  | missingField
  | binarySearchUnwrap (tag : Bytes)
  deriving DecidableEq, Repr

/-- Initial state (`get_fields_init`). -/
def initState (s : DeSchema) : DeState where
  attrVals := s.attrs.map fun _ => none
  sfcVals := s.sfcs.map fun _ => false
  childVals := s.children.map fun f => Slot.init f.arity
  untagEnumVals := s.untagEnums.map fun f => Slot.init f.arity
  untagStructArrs := s.untagStructs.map fun _ => []
  textVal := none

/-- The generated attribute arm for one field
(`get_attr_branch`): the key matches on the literal tag, any literal
mapped tag, or — via the `_ if` guard — ASCII case-insensitively against
the tag or any mapped tag. -/
def attrKeyMatches (f : AttrField) (k : Bytes) : Bool :=
  k == f.name || f.mapped.any (fun m => k == m) ||
    eqIgnoreAsciiCase k f.name || f.mapped.any (fun m => eqIgnoreAsciiCase k m)

/-- One step of the `attrs.into_iter().for_each` loop: first matching
declared attribute field wins; no match hits the `_` arm, which panics
iff `deny_unknown` was declared. -/
def processAttr (s : DeSchema) (st : DeState) (kv : Bytes × Bytes) :
    Except DeError DeState :=
  match listFindIdx (fun f => attrKeyMatches f kv.1) s.attrs with
  | some i => .ok { st with attrVals := st.attrVals.set i (some kv.2) }
  | none =>
    if s.denyUnknown then .error (.unknownField kv.1) else .ok st

/-- The whole attribute loop. -/
def processAttrs (s : DeSchema) (st : DeState) :
    List (Bytes × Bytes) → Except DeError DeState
  | [] => .ok st
  | kv :: rest => do processAttrs s (← processAttr s st kv) rest

/-- Split a stream at the first `End` event with the given name (how a
nested `deserialize`, and literally `Unparsed::deserialize`, consumes its
element's content): returns the consumed inner events and the remainder
after the `End`; end of stream is an implicit end. -/
def splitAtEnd (tag : Bytes) : List Event → List Event × List Event
  | [] => ([], [])
  | .endTag n :: rest =>
    if n == tag then ([], rest)
    else
      let p := splitAtEnd tag rest
      (.endTag n :: p.1, p.2)
  | e :: rest =>
    let p := splitAtEnd tag rest
    (e :: p.1, p.2)

theorem splitAtEnd_snd_length (tag : Bytes) (l : List Event) :
    (splitAtEnd tag l).2.length ≤ l.length := by
  induction l with
  | nil => simp [splitAtEnd]
  | cons e rest ih =>
    cases e with
    | endTag n =>
      by_cases h : (n == tag) = true
      · simp [splitAtEnd, h]
      · simp only [splitAtEnd, Bool.not_eq_true] at h ⊢
        simp [h]
        omega
    | start n a => simp only [splitAtEnd]; simp; omega
    | empty n a => simp only [splitAtEnd]; simp; omega
    | text t => simp only [splitAtEnd]; simp; omega

/-- Whether `children_match_branch` is generated at all: iff some child-like field
exists; otherwise Start/Empty events fall through to the unknown-field
arms (`encounter_unknown_branch`). -/
def hasChildLike (s : DeSchema) : Bool :=
  !s.children.isEmpty || !s.untagEnums.isEmpty || !s.untagStructs.isEmpty

/-- Whether a Start/Empty tag is claimed by some arm of the generated
inner `match current_tag` (child fields by byte-exact name, then untagged
enums and untagged structs by membership in the nested tag lists). -/
def matchesChildLike (s : DeSchema) (n : Bytes) : Bool :=
  s.children.any (fun f => n == f.name) ||
  s.untagEnums.any (fun f => listContainsBytes f.tags n) ||
  s.untagStructs.any (fun f => listContainsBytes f.tags n)

/-- Record one matched child-like occurrence, mirroring the arm order of
the generated inner match: declared child fields first (byte-exact tag),
then untagged-enum fields (`__get_children_tags().contains`), then
untagged-struct fields (capture as `Unparsed`, then
`binary_search(..).unwrap()` on the — unsorted — tag list). -/
def recordChild (s : DeSchema) (st : DeState) (n : Bytes)
    (attrs : List (Bytes × Bytes)) (inner : List Event) :
    Except DeError DeState :=
  match listFindIdx (fun f => n == f.name) s.children with
  | some i =>
    let ar := (s.children.getD i ⟨[], .scalar, false⟩).arity
    let cv := listModify (fun sl => sl.record ar ⟨attrs, inner⟩) i st.childVals
    .ok { st with childVals := cv }
  | none =>
  match listFindIdx (fun f => listContainsBytes f.tags n) s.untagEnums with
  | some i =>
    let ar := (s.untagEnums.getD i ⟨[], .scalar, false⟩).arity
    let uv := listModify (fun sl => sl.record ar (.fromTag n ⟨attrs, inner⟩)) i st.untagEnumVals
    .ok { st with untagEnumVals := uv }
  | none =>
  match listFindIdx (fun f => listContainsBytes f.tags n) s.untagStructs with
  | some i =>
    let f := s.untagStructs.getD i ⟨[], .scalar, false⟩
    if f.tags.isEmpty then .ok st
    else
      match rustBinarySearch f.tags n with
      | .ok idx =>
        let ua := listModify (fun a => a ++ [(f.tags.getD idx [], ⟨attrs, inner⟩)]) i st.untagStructArrs
        .ok { st with untagStructArrs := ua }
      | .error _ => .error (.binarySearchUnwrap n)
  | none => .ok st

/-- The `untag_text_enum_branches` body: every untagged-enum field whose
nested enum accepts text gets the text value set/pushed. -/
def untagTextUpdate (s : DeSchema) (st : DeState) (txt : Bytes) : DeState :=
  { st with untagEnumVals :=
      (st.untagEnumVals.zip s.untagEnums).map fun p =>
        if p.2.acceptsText then p.1.record p.2.arity (.fromText txt) else p.1 }

/-- The generated event loop of `get_de_struct_impl_block`, with the arm
order of the source: matching `End` breaks; an `Empty` naming a `sfc`
field sets it; `children_match_branch` (when any child-like field exists)
dispatches Start/Empty by tag and non-whitespace `Text` to untagged text
variants, ignoring unmatched tags; otherwise `encounter_unknown_branch`
panics on unknown Start/Empty iff `deny_unknown`; a `Text` event feeds the
text field when one exists; `Eof` (end of list) breaks.  The `fuel`
argument only bounds the recursion (each step consumes at least one
event, so `fuel = events.length` never runs out); it keeps the function
structurally recursive and hence kernel-computable. -/
def deLoopF (s : DeSchema) (tag : Bytes) :
    Nat → DeState → List Event → Except DeError DeState
  | 0, st, _ => .ok st
  | _ + 1, st, [] => .ok st
  | fuel + 1, st, .endTag n :: rest =>
    if n == tag then .ok st else deLoopF s tag fuel st rest
  | fuel + 1, st, .empty n attrs :: rest =>
    match listFindIdx (fun f => n == f.name) s.sfcs with
    | some i => deLoopF s tag fuel { st with sfcVals := st.sfcVals.set i true } rest
    | none =>
      if hasChildLike s then
        match recordChild s st n attrs [] with
        | .error e => .error e
        | .ok st' => deLoopF s tag fuel st' rest
      else if s.denyUnknown then .error (.unknownField n)
      else deLoopF s tag fuel st rest
  | fuel + 1, st, .start n attrs :: rest =>
    if hasChildLike s then
      if matchesChildLike s n then
        let p := splitAtEnd n rest
        match recordChild s st n attrs p.1 with
        | .error e => .error e
        | .ok st' => deLoopF s tag fuel st' p.2
      else deLoopF s tag fuel st rest
    else if s.denyUnknown then .error (.unknownField n)
    else deLoopF s tag fuel st rest
  | fuel + 1, st, .text txt :: rest =>
    if hasChildLike s then
      deLoopF s tag fuel
        (if (trimBytes txt).isEmpty then st else untagTextUpdate s st txt) rest
    else if s.hasTextField then
      deLoopF s tag fuel { st with textVal := some txt } rest
    else deLoopF s tag fuel st rest

theorem deLoopF_fuel_irrel (s : DeSchema) (tag : Bytes) :
    ∀ (fuel₁ fuel₂ : Nat) (st : DeState) (evs : List Event),
      evs.length ≤ fuel₁ → evs.length ≤ fuel₂ →
      deLoopF s tag fuel₁ st evs = deLoopF s tag fuel₂ st evs := by
  intro fuel₁
  induction fuel₁ with
  | zero =>
    intro fuel₂ st evs h₁ _
    have : evs = [] := List.length_eq_zero.mp (Nat.le_zero.mp h₁)
    subst this
    cases fuel₂ <;> rfl
  | succ f ih =>
    intro fuel₂ st evs h₁ h₂
    cases evs with
    | nil => cases fuel₂ <;> rfl
    | cons e rest =>
      cases fuel₂ with
      | zero => simp at h₂
      | succ g =>
        have hr₁ : rest.length ≤ f := by simp at h₁; omega
        have hr₂ : rest.length ≤ g := by simp at h₂; omega
        cases e with
        | endTag n =>
          simp only [deLoopF]
          by_cases h : (n == tag) = true <;> simp [h, ih g st rest hr₁ hr₂]
        | empty n attrs =>
          simp only [deLoopF]
          cases listFindIdx (fun f => n == f.name) s.sfcs with
          | some i => exact ih g _ rest hr₁ hr₂
          | none =>
            simp only
            by_cases hc : hasChildLike s = true
            · simp only [hc, if_pos]
              cases recordChild s st n attrs [] with
              | error e => rfl
              | ok st' => exact ih g st' rest hr₁ hr₂
            · simp only [Bool.not_eq_true] at hc
              simp only [hc, Bool.false_eq_true, if_false]
              by_cases hd : s.denyUnknown = true
              · simp [hd]
              · simp only [Bool.not_eq_true] at hd
                simp only [hd, Bool.false_eq_true, if_false]
                exact ih g st rest hr₁ hr₂
        | start n attrs =>
          simp only [deLoopF]
          by_cases hc : hasChildLike s = true
          · simp only [hc, if_pos]
            by_cases hm : matchesChildLike s n = true
            · simp only [hm, if_pos]
              have hsp := splitAtEnd_snd_length n rest
              cases recordChild s st n attrs (splitAtEnd n rest).1 with
              | error e => rfl
              | ok st' =>
                exact ih g st' (splitAtEnd n rest).2 (by omega) (by omega)
            · simp only [Bool.not_eq_true] at hm
              simp only [hm, Bool.false_eq_true, if_false]
              exact ih g st rest hr₁ hr₂
          · simp only [Bool.not_eq_true] at hc
            simp only [hc, Bool.false_eq_true, if_false]
            by_cases hd : s.denyUnknown = true
            · simp [hd]
            · simp only [Bool.not_eq_true] at hd
              simp only [hd, Bool.false_eq_true, if_false]
              exact ih g st rest hr₁ hr₂
        | text txt =>
          simp only [deLoopF]
          by_cases hc : hasChildLike s = true
          · simp only [hc, if_pos]
            exact ih g _ rest hr₁ hr₂
          · simp only [Bool.not_eq_true] at hc
            simp only [hc, Bool.false_eq_true, if_false]
            by_cases ht : s.hasTextField = true
            · simp only [ht, if_pos]
              exact ih g _ rest hr₁ hr₂
            · simp only [Bool.not_eq_true] at ht
              simp only [ht, Bool.false_eq_true, if_false]
              exact ih g st rest hr₁ hr₂

/-- The generated event loop, run with exactly enough fuel. -/
def deLoop (s : DeSchema) (tag : Bytes) (st : DeState) (evs : List Event) :
    Except DeError DeState :=
  deLoopF s tag evs.length st evs

theorem deLoop_nil (s : DeSchema) (tag : Bytes) (st : DeState) :
    deLoop s tag st [] = .ok st := rfl

theorem deLoop_endTag (s : DeSchema) (tag n : Bytes) (st : DeState)
    (rest : List Event) :
    deLoop s tag st (.endTag n :: rest) =
      if n == tag then .ok st else deLoop s tag st rest := rfl

theorem deLoop_empty (s : DeSchema) (tag n : Bytes) (st : DeState)
    (attrs : List (Bytes × Bytes)) (rest : List Event) :
    deLoop s tag st (.empty n attrs :: rest) =
      match listFindIdx (fun f => n == f.name) s.sfcs with
      | some i => deLoop s tag { st with sfcVals := st.sfcVals.set i true } rest
      | none =>
        if hasChildLike s then
          match recordChild s st n attrs [] with
          | .error e => .error e
          | .ok st' => deLoop s tag st' rest
        else if s.denyUnknown then .error (.unknownField n)
        else deLoop s tag st rest := rfl

theorem deLoop_start (s : DeSchema) (tag n : Bytes) (st : DeState)
    (attrs : List (Bytes × Bytes)) (rest : List Event) :
    deLoop s tag st (.start n attrs :: rest) =
      (if hasChildLike s then
        if matchesChildLike s n then
          match recordChild s st n attrs (splitAtEnd n rest).1 with
          | .error e => .error e
          | .ok st' => deLoop s tag st' (splitAtEnd n rest).2
        else deLoop s tag st rest
      else if s.denyUnknown then .error (.unknownField n)
      else deLoop s tag st rest) := by
  show deLoopF s tag (rest.length + 1) st (.start n attrs :: rest) = _
  simp only [deLoopF]
  by_cases hc : hasChildLike s = true
  · simp only [hc, if_pos]
    by_cases hm : matchesChildLike s n = true
    · simp only [hm, if_pos]
      have hsp := splitAtEnd_snd_length n rest
      cases recordChild s st n attrs (splitAtEnd n rest).1 with
      | error e => rfl
      | ok st' =>
        simp only
        exact deLoopF_fuel_irrel s tag rest.length (splitAtEnd n rest).2.length st'
          (splitAtEnd n rest).2 (by omega) (by omega)
    · simp only [Bool.not_eq_true] at hm
      simp [hm]
      rfl
  · simp only [Bool.not_eq_true] at hc
    simp [hc]
    rfl

theorem deLoop_text (s : DeSchema) (tag : Bytes) (txt : Bytes) (st : DeState)
    (rest : List Event) :
    deLoop s tag st (.text txt :: rest) =
      (if hasChildLike s then
        deLoop s tag
          (if (trimBytes txt).isEmpty then st else untagTextUpdate s st txt) rest
      else if s.hasTextField then
        deLoop s tag { st with textVal := some txt } rest
      else deLoop s tag st rest) := rfl

/-- The `root_comparison` prologue: with declared roots, the incoming tag
must equal one of them ASCII case-insensitively. -/
def rootCheck (s : DeSchema) (tag : Bytes) : Bool :=
  s.roots.isEmpty || s.roots.any (fun r => eqIgnoreAsciiCase r tag)

/-- Whether every required field received a value (`get_result`'s
`.unwrap()` calls and the untagged-struct resolution): a required plain
attribute, a scalar default-less child, a scalar untagged enum, a scalar
default-less untagged struct (which needs a non-empty capture array) and a
required text field must all be present. -/
def requiredSatisfied (s : DeSchema) (st : DeState) : Bool :=
  ((st.attrVals.zip s.attrs).all fun (v, f) =>
    f.shape ≠ AttrShape.plain || v.isSome) &&
  ((st.childVals.zip s.children).all fun (sl, f) =>
    f.arity ≠ DeArity.scalar || f.hasDefault ||
      match sl with | .one (some _) => true | _ => false) &&
  ((st.untagEnumVals.zip s.untagEnums).all fun (sl, f) =>
    f.arity ≠ DeArity.scalar ||
      match sl with | .one (some _) => true | _ => false) &&
  ((st.untagStructArrs.zip s.untagStructs).all fun (a, f) =>
    f.arity ≠ DeArity.scalar || f.hasDefault || !a.isEmpty) &&
  (!s.textRequired || st.textVal.isSome)

/-- The complete generated `deserialize` (root check, attribute loop, the
event loop unless `is_empty`, untagged-struct resolution and required
checks at result build). -/
def deserializeStruct (s : DeSchema) (tag : Bytes)
    (attrs : List (Bytes × Bytes)) (isEmpty : Bool) (events : List Event) :
    Except DeError DeState := do
  if !rootCheck s tag then throw (.unexpectedRoot tag)
  let st ← processAttrs s (initState s) attrs
  let st ← if isEmpty then pure st else deLoop s tag st events
  if requiredSatisfied s st then pure st else throw .missingField

/-! ## Serialization

The embedding of `get_ser_struct_impl_block` / `init_is_empty`
(`derives/src/ser.rs`).  The schema and the current value are merged into
one record (the generated code is specialised per type and reads `self`);
a nested field's own serialization output (`self.f.serialize(name, writer)`
for children, `self.f.serialize(b"", writer)` for untagged fields) is
represented by the event list that call would write.  Note the source
destructures `FieldsSummary` with `untagged_structs: _` — untagged-struct
fields never reach the writer. -/

/-- An attribute field at serialization time (`build_attr_and_push`):
`Option<T>` renders only `Some`, a `default`ed field renders only when it
differs from the default, a plain field always renders. -/
inductive SerAttrVal where
  | opt (v : Option Bytes)
  | withDefault (dflt v : Bytes)
  | plain (v : Bytes)
  deriving DecidableEq, Repr

structure SerAttr where
  name : Bytes
  val : SerAttrVal
  deriving DecidableEq, Repr

structure SerSfc where
  name : Bytes
  val : Bool
  deriving DecidableEq, Repr

/-- The per-child boolean of `init_is_empty`: `Vec` → `len() > 0`,
`Option` → `is_some()`, plain/boxed with `default` → `value != default()`,
plain without default → `true`. -/
inductive SerChildPresence where
  | vec (len : Nat)
  | opt (isSome : Bool)
  | withDefault (eqDefault : Bool)
  | plain
  deriving DecidableEq, Repr

structure SerChild where
  name : Bytes
  skipSerializing : Bool
  presence : SerChildPresence
  events : List Event
  deriving DecidableEq, Repr

/-- An untagged field at serialization time: the events its
`serialize(b"", writer)` call would write. -/
structure SerUntag where
  events : List Event
  deriving DecidableEq, Repr

/-- Presence of the text field (`text_init`). -/
inductive SerTextPresence where
  | opt (isSome : Bool)
  | withDefault (eqDefault : Bool)
  | plain
  deriving DecidableEq, Repr

structure SerText where
  presence : SerTextPresence
  rendered : Bytes
  deriving DecidableEq, Repr

structure SerStruct where
  withNs : Option Bytes
  customNs : List (Bytes × Bytes)
  attrs : List SerAttr
  sfcs : List SerSfc
  children : List SerChild
  untagEnums : List SerUntag
  untagStructs : List SerUntag
  text : Option SerText
  deriving DecidableEq, Repr

/-- The value pushed for one attribute field, if any
(`build_attr_and_push`). -/
def serAttrPush : SerAttrVal → Option Bytes
  | .opt (some v) => some v
  | .opt none => none
  | .withDefault dflt v => if dflt ≠ v then some v else none
  | .plain v => some v

/-- The full attribute list of the element: `xmlns` declaration, custom
`xmlns:<prefix>` declarations, then the field attributes, in source
order. -/
def buildSerAttrs (s : SerStruct) : List (Bytes × Bytes) :=
  (match s.withNs with
   | some ns => [(byteStr "xmlns", ns)]
   | none => []) ++
  (s.customNs.map fun p => (byteStr "xmlns:" ++ p.1, p.2)) ++
  (s.attrs.filterMap fun a => (serAttrPush a.val).map fun v => (a.name, v))

def SerChildPresence.toWrite : SerChildPresence → Bool
  | .vec len => decide (0 < len)
  | .opt b => b
  | .withDefault eq => !eq
  | .plain => true

/-- The `has_text` flag of `init_is_empty`. -/
def serTextHas : Option SerText → Bool
  | none => false
  | some t =>
    match t.presence with
    | .opt b => b
    | .withDefault eq => !eq
    | .plain => true

/-- The `is_empty` flag of `init_is_empty`: no child/sfc/text content to write and
no untagged-enum field declared (the `untagged_structs` bucket does not
participate). -/
def serIsEmpty (s : SerStruct) : Bool :=
  let hasChildToWrite :=
    s.children.any (fun c => c.presence.toWrite) ||
    s.sfcs.any (fun f => f.val) || serTextHas s.text
  !hasChildToWrite && s.untagEnums.isEmpty

/-- Source `write_text_or_children`: the text field's rendered content if the
record has one (written unless the field is `Option` and `None`),
otherwise the self-closing markers that are `true`, each non-skipped
child field's own output, then each untagged-enum field's output invoked
with the empty tag.  Untagged-struct fields are absent — the source
discards that bucket. -/
def serContent (s : SerStruct) : List Event :=
  match s.text with
  | some t =>
    match t.presence with
    | .opt false => []
    | _ => [.text t.rendered]
  | none =>
    (s.sfcs.filterMap fun f => if f.val then some (.empty f.name []) else none) ++
    ((s.children.filter (fun c => !c.skipSerializing)).map (fun c => c.events)).flatten ++
    (s.untagEnums.map (fun u => u.events)).flatten

/-- The generated `XmlSerialize::serialize` body: empty elements are
written self-closing; a zero-length tag is an untagged invocation that
writes only the content; otherwise Start, content, End. -/
def serializeStruct (s : SerStruct) (tag : Bytes) : List Event :=
  let attrs := buildSerAttrs s
  if serIsEmpty s then [.empty tag attrs]
  else if tag.isEmpty then serContent s
  else .start tag attrs :: (serContent s ++ [.endTag tag])

/-! ## Deserialization entry points (src/lib.rs)

`xml_deserialize_from_reader` / `xml_deserialize_from_reader_with_root`.
The per-type pieces (`T::rename_all().transform` and `T::deserialize`)
are parameters: the case transform is the external case-converter
collaborator, and `deserialize` panics rather than returning errors, so
it is a total function here. -/

inductive RootDeError where
  | missingRootDecl
  | cannotFindElement (root : Bytes)
  | noMatchingRoot
  deriving DecidableEq, Repr

/-- Source `xml_deserialize_from_reader_with_root`: scan forward for a
Start/Empty event whose policy-transformed name equals the
policy-transformed root, then hand the original `root` bytes to
`T::deserialize`; reaching `Eof` is the "Cannot find the element"
error. -/
def xmlDeserializeFromReaderWithRoot (tf : Bytes → Bytes)
    (des : Bytes → List (Bytes × Bytes) → Bool → List Event → α)
    (root : Bytes) : List Event → Except RootDeError α
  | [] => .error (.cannotFindElement root)
  | .start n attrs :: rest =>
    if tf n == tf root then .ok (des root attrs false rest)
    else xmlDeserializeFromReaderWithRoot tf des root rest
  | .empty n attrs :: rest =>
    if tf n == tf root then .ok (des root attrs true rest)
    else xmlDeserializeFromReaderWithRoot tf des root rest
  | .endTag _ :: rest => xmlDeserializeFromReaderWithRoot tf des root rest
  | .text _ :: rest => xmlDeserializeFromReaderWithRoot tf des root rest

/-- The `for root in &roots` loop of `xml_deserialize_from_reader`,
carrying `last_err`. -/
def deRootsLoop (tf : Bytes → Bytes)
    (des : Bytes → List (Bytes × Bytes) → Bool → List Event → α)
    (events : List Event) :
    List Bytes → Option RootDeError → Except RootDeError α
  | [], last =>
    .error (match last with | some e => e | none => .noMatchingRoot)
  | r :: rs, last =>
    match xmlDeserializeFromReaderWithRoot tf des r events with
    | .ok v => .ok v
    | .error e =>
      let _ := last
      deRootsLoop tf des events rs (some e)

/-- Source `xml_deserialize_from_reader`: requires a declared root, then tries
each declared root in order on a fresh cursor over the buffered input,
returning the first success, else the error kept in `last_err`. -/
def xmlDeserializeFromReader (tf : Bytes → Bytes)
    (des : Bytes → List (Bytes × Bytes) → Bool → List Event → α)
    (roots : List Bytes) (events : List Event) : Except RootDeError α :=
  if roots.isEmpty then .error .missingRootDecl
  else deRootsLoop tf des events roots none

/-! ## Unparsed (opaque passthrough), src/lib.rs -/

/-- Source `Unparsed`: raw attribute pairs and raw sub-events. -/
structure Unparsed where
  data : List Event
  attrs : List (Bytes × Bytes)
  deriving DecidableEq, Repr

/-- Source `impl XmlDeserialize for Unparsed`: record the attributes verbatim;
unless self-closing, push raw events until the first `End` event named
`tag` (or end of stream).  Returns the capture and the unconsumed
remainder of the stream. -/
def unparsedDeserialize (tag : Bytes) (attrs : List (Bytes × Bytes))
    (isEmpty : Bool) (events : List Event) : Unparsed × List Event :=
  if isEmpty then (⟨[], attrs⟩, events)
  else
    let p := splitAtEnd tag events
    (⟨p.1, attrs⟩, p.2)

/-- Source `impl XmlSerialize for Unparsed`: Start/attributes, the raw events,
End — or a single self-closing element when no events were captured. -/
def unparsedSerialize (u : Unparsed) (tag : Bytes) : List Event :=
  if !u.data.isEmpty then .start tag u.attrs :: (u.data ++ [.endTag tag])
  else [.empty tag u.attrs]

/-! ## Byte-level reader and writer

Modelled from the spec: quick_xml, "the underlying XML tokenizer/event
reader and writer", is an external collaborator "treated as a black-box
streaming XML event source/sink".  The writer renders events in
quick_xml's canonical form (double-quoted, escaped attribute values;
`<t/>` for `Event::Empty`); the reader tokenizes a byte stream into
events, keeping attribute values and text content raw, as
`quick_xml::events::attributes::Attribute::value` and `BytesText` do
before an explicit `unescape` call. -/

/-- Modelled from the spec: the writer's escaping of one attribute-value
byte (`&`, `<`, `>`, `"` become entities). -/
def escAttrByte (b : Nat) : Bytes :=
  if b == 38 then byteStr "&amp;"
  else if b == 60 then byteStr "&lt;"
  else if b == 62 then byteStr "&gt;"
  else if b == 34 then byteStr "&quot;"
  else [b]

/-- Modelled from the spec: render an attribute list; quick_xml writes
` key="value"` with the value escaped. -/
def renderAttrs (attrs : List (Bytes × Bytes)) : Bytes :=
  (attrs.map fun p => [32] ++ p.1 ++ [61, 34] ++ (p.2.map escAttrByte).flatten ++ [34]).flatten

/-- Modelled from the spec: quick_xml's `Writer::write_event`.  Replayed
`Text` events hold content exactly as read, and the writer emits the held
bytes verbatim. -/
def writeEventBytes : Event → Bytes
  | .start n attrs => [60] ++ n ++ renderAttrs attrs ++ [62]
  | .empty n attrs => [60] ++ n ++ renderAttrs attrs ++ [47, 62]
  | .endTag n => [60, 47] ++ n ++ [62]
  | .text t => t

/-- Render a whole event stream to bytes. -/
def writeEventsBytes (evs : List Event) : Bytes :=
  (evs.map writeEventBytes).flatten

/-- A byte ending an element name (whitespace, `/`, `>`). -/
def isNameEnd (b : Nat) : Bool := isAsciiWhitespace b || b == 47 || b == 62

/-- Split a name at its first terminator. -/
def splitName : Bytes → Bytes × Bytes
  | [] => ([], [])
  | b :: rest =>
    if isNameEnd b then ([], b :: rest)
    else
      let p := splitName rest
      (b :: p.1, p.2)

/-- Take bytes up to (excluding) the first occurrence of `c`; fails when
`c` is absent. -/
def splitUntilByte (c : Nat) : Bytes → Option (Bytes × Bytes)
  | [] => none
  | b :: rest =>
    if b == c then some ([], rest)
    else
      (splitUntilByte c rest).map fun p => (b :: p.1, p.2)

/-- Modelled from the spec: the reader's attribute scanner inside a start
tag — skip whitespace, then either the tag terminator (`>` or `/>`) or a
`key="value"` / `key='value'` pair with the raw value kept unescaped. -/
def parseAttrsF : Nat → Bytes → Option (List (Bytes × Bytes) × Bool × Bytes)
  | 0, _ => none
  | fuel + 1, input =>
    match input.dropWhile isAsciiWhitespace with
    | 62 :: rest => some ([], false, rest)
    | 47 :: 62 :: rest => some ([], true, rest)
    | rest =>
      match splitUntilByte 61 rest with
      | none => none
      | some (key, afterEq) =>
        match afterEq with
        | 34 :: v =>
          match splitUntilByte 34 v with
          | none => none
          | some (val, afterVal) =>
            (parseAttrsF fuel afterVal).map fun r => ((key, val) :: r.1, r.2)
        | 39 :: v =>
          match splitUntilByte 39 v with
          | none => none
          | some (val, afterVal) =>
            (parseAttrsF fuel afterVal).map fun r => ((key, val) :: r.1, r.2)
        | _ => none

/-- Modelled from the spec: the pull reader's tokenizer, producing the
event list of a byte stream (elements, end tags, self-closing elements
and text; no comments, processing instructions or CDATA). -/
def parseEventsF : Nat → Bytes → Option (List Event)
  | 0, _ => none
  | fuel + 1, input =>
    match input with
    | [] => some []
    | 60 :: 47 :: rest =>
      let p := splitName rest
      match p.2.dropWhile isAsciiWhitespace with
      | 62 :: rest' => (parseEventsF fuel rest').map fun evs => .endTag p.1 :: evs
      | _ => none
    | 60 :: rest =>
      let p := splitName rest
      if p.1.isEmpty then none
      else
        match parseAttrsF (p.2.length + 1) p.2 with
        | none => none
        | some (attrs, selfClosing, rest') =>
          (parseEventsF fuel rest').map fun evs =>
            (if selfClosing then Event.empty p.1 attrs else Event.start p.1 attrs) :: evs
    | _ =>
      let txt := input.takeWhile (fun b => !(b == 60))
      let rest := input.dropWhile (fun b => !(b == 60))
      (parseEventsF fuel rest).map fun evs => .text txt :: evs

/-- The reader with enough fuel for the whole input. -/
def parseEvents (input : Bytes) : Option (List Event) :=
  parseEventsF (input.length + 1) input

/-- The pipeline `emit(capture(x))` for a subtree `x` given as bytes: tokenize, feed
the root element into `Unparsed::deserialize`, serialize the capture back
under the same tag, render to bytes. -/
def unparsedRoundTrip (x : Bytes) : Option Bytes :=
  match parseEvents x with
  | some (.start n attrs :: rest) =>
    some (writeEventsBytes (unparsedSerialize (unparsedDeserialize n attrs false rest).1 n))
  | some [.empty n attrs] =>
    some (writeEventsBytes (unparsedSerialize (unparsedDeserialize n attrs true []).1 n))
  | _ => none

/-! ## Theorems -/

/-- C9: the boolean scalar codec serializes `true` as `"1"` and `false` as
`"0"`; its deserializer is invariant under ASCII case and accepts exactly
`"1"`, `"true"` (as `true`) and `"0"`, `"false"` (as `false`), erring on
every other input. -/
theorem claim_C9 :
    boolXmlSerialize true = byteStr "1" ∧
    boolXmlSerialize false = byteStr "0" ∧
    ∀ s : Bytes,
      boolXmlDeserialize s = boolXmlDeserialize (toAsciiLowercase s) ∧
      (boolXmlDeserialize s = .ok true ↔
        (toAsciiLowercase s = byteStr "1" ∨ toAsciiLowercase s = byteStr "true")) ∧
      (boolXmlDeserialize s = .ok false ↔
        (toAsciiLowercase s = byteStr "0" ∨ toAsciiLowercase s = byteStr "false")) ∧
      ((boolXmlDeserialize s).isOk = false ↔
        toAsciiLowercase s ∉
          [byteStr "1", byteStr "true", byteStr "0", byteStr "false"]) := by
  refine ⟨rfl, rfl, fun s => ?_⟩
  have hb : ∀ b, asciiLowerByte (asciiLowerByte b) = asciiLowerByte b := by
    intro b
    unfold asciiLowerByte
    by_cases h : 65 ≤ b ∧ b ≤ 90
    · rw [if_pos h, if_neg (by omega)]
    · rw [if_neg h, if_neg h]
  have hidem : toAsciiLowercase (toAsciiLowercase s) = toAsciiLowercase s := by
    unfold toAsciiLowercase
    rw [List.map_map]
    exact List.map_congr_left (fun b _ => hb b)
  have d10 : (byteStr "1" : Bytes) ≠ byteStr "0" := by decide
  have d1f : (byteStr "1" : Bytes) ≠ byteStr "false" := by decide
  have dt0 : (byteStr "true" : Bytes) ≠ byteStr "0" := by decide
  have dtf : (byteStr "true" : Bytes) ≠ byteStr "false" := by decide
  refine ⟨?_, ?_, ?_, ?_⟩
  · simp only [boolXmlDeserialize, hidem]
  · simp only [boolXmlDeserialize]
    split <;> rename_i h₁
    · simp only [Bool.or_eq_true, beq_iff_eq] at h₁
      simp [h₁]
    · simp only [Bool.or_eq_true, beq_iff_eq] at h₁
      push_neg at h₁
      split <;> simp [h₁]
  · simp only [boolXmlDeserialize]
    split <;> rename_i h₁
    · simp only [Bool.or_eq_true, beq_iff_eq] at h₁
      have : ¬(toAsciiLowercase s = byteStr "0" ∨ toAsciiLowercase s = byteStr "false") := by
        rcases h₁ with h | h <;> rw [h] <;> rintro (h' | h') <;> simp_all
      simp [this]
    · split <;> rename_i h₂
      · simp only [Bool.or_eq_true, beq_iff_eq] at h₂
        simp [h₂]
      · simp only [Bool.or_eq_true, beq_iff_eq] at h₂
        push_neg at h₂
        simp [h₂]
  · simp only [boolXmlDeserialize]
    split <;> rename_i h₁
    · simp only [Bool.or_eq_true, beq_iff_eq] at h₁
      simp only [Except.isOk, Except.toBool]
      constructor
      · intro h; cases h
      · intro h
        exact absurd (by rcases h₁ with h' | h' <;> simp [h']) h
    · split <;> rename_i h₂
      · simp only [Bool.or_eq_true, beq_iff_eq] at h₂
        simp only [Except.isOk, Except.toBool]
        constructor
        · intro h; cases h
        · intro h
          exact absurd (by rcases h₂ with h' | h' <;> simp [h']) h
      · simp only [Bool.or_eq_true, beq_iff_eq] at h₁ h₂
        push_neg at h₁ h₂
        simp only [Except.isOk, Except.toBool]
        constructor
        · intro _
          simp [h₁.1, h₁.2, h₂.1, h₂.2]
        · intro _; trivial

/-- C10: the untagged-struct capture path's `binary_search(..).unwrap()`
is claimed panic-free whenever the guard `contains` succeeded, but on the
declaration-ordered (unsorted) tag list `["b", "a"]` the contained tag
`"b"` makes `contains` succeed while `binary_search` returns `Err(2)`, so
the `unwrap` panics.  This evaluates the embedded code at the failing
input. -/
theorem claim_C10 :
    listContainsBytes [byteStr "b", byteStr "a"] (byteStr "b") = true ∧
    rustBinarySearch [byteStr "b", byteStr "a"] (byteStr "b") = .error 2 := by
  exact ⟨by decide, by rfl⟩

/-- C4 counterexample: with declared roots `["a", "b"]` and an input
containing neither, the first attempt fails with `Cannot find the
element: a`, yet the entry point surfaces the error of the *last* root
(`b`), not the first error encountered as claimed. -/
theorem claim_C4_counterexample :
    xmlDeserializeFromReaderWithRoot (fun b => b) (fun _ _ _ _ => ())
        (byteStr "a") [] = .error (.cannotFindElement (byteStr "a")) ∧
    xmlDeserializeFromReaderWithRoot (fun b => b) (fun _ _ _ _ => ())
        (byteStr "b") [] = .error (.cannotFindElement (byteStr "b")) ∧
    xmlDeserializeFromReader (fun b => b) (fun _ _ _ _ => ())
        [byteStr "a", byteStr "b"] [] = .error (.cannotFindElement (byteStr "b")) ∧
    RootDeError.cannotFindElement (byteStr "b") ≠
      RootDeError.cannotFindElement (byteStr "a") := by
  refine ⟨rfl, rfl, rfl, ?_⟩
  intro h
  have := congrArg (fun e => match e with
    | RootDeError.cannotFindElement r => r
    | _ => []) h
  simp [byteStr] at this

/-- C6 counterexample: the round trip is not the identity on every
syntactically valid subtree.  First, `emit(capture("<a></a>"))` yields
`"<a/>"` — the writer rewrites an empty Start/End pair as a
self-closing element.  Second, on a subtree with a same-named nested
element, `emit(capture("<a><a>x</a></a>"))` yields `"<a><a>x</a>"` —
the capture loop breaks at the *first* `End` named like the element, so
the trailing `End` event is lost and even the event sequence is not
reproduced. -/
theorem claim_C6_counterexample :
    (unparsedRoundTrip (byteStr "<a></a>") = some (byteStr "<a/>") ∧
      byteStr "<a/>" ≠ byteStr "<a></a>") ∧
    (unparsedRoundTrip (byteStr "<a><a>x</a></a>") =
        some (byteStr "<a><a>x</a>") ∧
      byteStr "<a><a>x</a>" ≠ byteStr "<a><a>x</a></a>") := by
  exact ⟨⟨rfl, by decide⟩, ⟨rfl, by decide⟩⟩

theorem except_isOk_true {ε α : Type} (x : Except ε α) (h : x.isOk = true) :
    ∃ v, x = .ok v := by
  cases x with
  | ok v => exact ⟨v, rfl⟩
  | error e => simp [Except.isOk, Except.toBool] at h

theorem except_isOk_false {ε α : Type} (x : Except ε α) (h : x.isOk = false) :
    ∃ e, x = .error e := by
  cases x with
  | ok v => simp [Except.isOk, Except.toBool] at h
  | error e => exact ⟨e, rfl⟩

theorem deRootsLoop_all_fail {α : Type} (tf : Bytes → Bytes)
    (des : Bytes → List (Bytes × Bytes) → Bool → List Event → α)
    (events : List Event) :
    ∀ (rs : List Bytes) (last : Option RootDeError),
      (∀ q ∈ rs, (xmlDeserializeFromReaderWithRoot tf des q events).isOk = false) →
      ∀ r, rs.getLast? = some r →
      deRootsLoop tf des events rs last =
        xmlDeserializeFromReaderWithRoot tf des r events := by
  intro rs
  induction rs with
  | nil => intro last _ r hr; simp at hr
  | cons r' rs' ih =>
    intro last hfail r hr
    obtain ⟨e, he⟩ := except_isOk_false _ (hfail r' (by simp))
    simp only [deRootsLoop, he]
    cases rs' with
    | nil =>
      simp only [List.getLast?_singleton, Option.some_inj] at hr
      subst hr
      simp [deRootsLoop, he]
    | cons r'' rs'' =>
      have hr' : (r'' :: rs'').getLast? = some r := by
        rw [List.getLast?_cons_cons] at hr
        exact hr
      exact ih (some e) (fun q hq => hfail q (by simp [hq])) r hr'

theorem deRootsLoop_first_success {α : Type} (tf : Bytes → Bytes)
    (des : Bytes → List (Bytes × Bytes) → Bool → List Event → α)
    (events : List Event) :
    ∀ (p : List Bytes) (r : Bytes) (s : List Bytes) (last : Option RootDeError),
      (∀ q ∈ p, (xmlDeserializeFromReaderWithRoot tf des q events).isOk = false) →
      (xmlDeserializeFromReaderWithRoot tf des r events).isOk = true →
      deRootsLoop tf des events (p ++ r :: s) last =
        xmlDeserializeFromReaderWithRoot tf des r events := by
  intro p
  induction p with
  | nil =>
    intro r s last _ hok
    obtain ⟨v, hv⟩ := except_isOk_true _ hok
    simp [deRootsLoop, hv]
  | cons q p' ih =>
    intro r s last hfail hok
    obtain ⟨e, he⟩ := except_isOk_false _ (hfail q (by simp))
    simp only [List.cons_append, deRootsLoop, he]
    exact ih r s (some e) (fun q' hq' => hfail q' (by simp [hq'])) hok

/-- C4 (amended): the deserialization entry point scans the stream for a
Start/Empty event whose (policy-transformed) name matches, tries each
declared root in declaration order and returns the first successful
value; when every declared root fails it returns the error of the *last*
root tried (the source keeps overwriting `last_err`), not the first error
encountered. -/
theorem claim_C4 {α : Type} (tf : Bytes → Bytes)
    (des : Bytes → List (Bytes × Bytes) → Bool → List Event → α)
    (events : List Event) (roots : List Bytes) :
    (∀ (p : List Bytes) (r : Bytes) (s : List Bytes), roots = p ++ r :: s →
      (∀ q ∈ p, (xmlDeserializeFromReaderWithRoot tf des q events).isOk = false) →
      (xmlDeserializeFromReaderWithRoot tf des r events).isOk = true →
      xmlDeserializeFromReader tf des roots events =
        xmlDeserializeFromReaderWithRoot tf des r events) ∧
    ((∀ q ∈ roots, (xmlDeserializeFromReaderWithRoot tf des q events).isOk = false) →
      ∀ r, roots.getLast? = some r →
      xmlDeserializeFromReader tf des roots events =
        xmlDeserializeFromReaderWithRoot tf des r events) := by
  constructor
  · intro p r s hsplit hfail hok
    have hne : roots.isEmpty = false := by
      subst hsplit
      cases p <;> simp
    unfold xmlDeserializeFromReader
    rw [hne]
    simp only [Bool.false_eq_true, if_false]
    subst hsplit
    exact deRootsLoop_first_success tf des events p r s none hfail hok
  · intro hfail r hr
    have hne : roots.isEmpty = false := by
      cases roots <;> simp_all
    unfold xmlDeserializeFromReader
    rw [hne]
    simp only [Bool.false_eq_true, if_false]
    exact deRootsLoop_all_fail tf des events roots none hfail r hr

/-- Witness for C4 at concrete inputs: roots `["a", "b"]` over the single
event `<b/>`: the first root's scan fails, the second succeeds, and the
entry point returns the second root's result. -/
theorem claim_C4_witness :
    xmlDeserializeFromReader (fun b => b) (fun root _ _ _ => root)
        [byteStr "a", byteStr "b"] [.empty (byteStr "b") []] =
      xmlDeserializeFromReaderWithRoot (fun b => b) (fun root _ _ _ => root)
        (byteStr "b") [.empty (byteStr "b") []] :=
  (claim_C4 (fun b => b) (fun root _ _ _ => root) [.empty (byteStr "b") []]
      [byteStr "a", byteStr "b"]).1
    [byteStr "a"] (byteStr "b") [] rfl (by decide) (by decide)

theorem splitAtEnd_cons_endTag (tag n : Bytes) (rest : List Event) :
    splitAtEnd tag (.endTag n :: rest) =
      if n == tag then ([], rest)
      else (.endTag n :: (splitAtEnd tag rest).1, (splitAtEnd tag rest).2) := by
  simp only [splitAtEnd]

theorem splitAtEnd_cons_start (tag n : Bytes) (a : List (Bytes × Bytes))
    (rest : List Event) :
    splitAtEnd tag (.start n a :: rest) =
      (.start n a :: (splitAtEnd tag rest).1, (splitAtEnd tag rest).2) := rfl

theorem splitAtEnd_cons_empty (tag n : Bytes) (a : List (Bytes × Bytes))
    (rest : List Event) :
    splitAtEnd tag (.empty n a :: rest) =
      (.empty n a :: (splitAtEnd tag rest).1, (splitAtEnd tag rest).2) := rfl

theorem splitAtEnd_cons_text (tag t : Bytes) (rest : List Event) :
    splitAtEnd tag (.text t :: rest) =
      (.text t :: (splitAtEnd tag rest).1, (splitAtEnd tag rest).2) := rfl

theorem splitAtEnd_append_end (tag : Bytes) (inner rest : List Event)
    (h : inner.all (fun e => !(e == .endTag tag)) = true) :
    splitAtEnd tag (inner ++ .endTag tag :: rest) = (inner, rest) := by
  induction inner with
  | nil => simp [splitAtEnd]
  | cons e inner' ih =>
    simp only [List.all_cons, Bool.and_eq_true] at h
    have hrec := ih h.2
    rw [List.cons_append]
    cases e with
    | endTag n =>
      have hne : (n == tag) = false := by
        by_contra hc
        rw [Bool.not_eq_false, beq_iff_eq] at hc
        subst hc
        simp at h
      rw [splitAtEnd_cons_endTag, if_neg (by simp [hne]), hrec]
    | start n a => rw [splitAtEnd_cons_start, hrec]
    | empty n a => rw [splitAtEnd_cons_empty, hrec]
    | text t => rw [splitAtEnd_cons_text, hrec]

/-- C6 (amended): the opaque capture round trip is exact at the *event*
level only for elements whose inner events contain no `End` named like
the element itself: capturing such an element records exactly its
attributes and inner events, and emitting the capture replays Start,
attributes and inner events verbatim (a capture with no events re-emits
a self-closing element).  When a same-named nested element occurs, the
capture loop breaks at the first matching `End` and events are lost; and
byte-for-byte identity fails even in the restricted case, because the
writer normalizes empty elements to the self-closing form and attribute
quoting/escaping to its canonical form. -/
theorem claim_C6 (tag : Bytes) (attrs : List (Bytes × Bytes))
    (inner rest : List Event)
    (hnoend : inner.all (fun e => !(e == .endTag tag)) = true) :
    unparsedDeserialize tag attrs false (inner ++ .endTag tag :: rest) =
      (⟨inner, attrs⟩, rest) ∧
    (inner ≠ [] →
      unparsedSerialize ⟨inner, attrs⟩ tag =
        .start tag attrs :: (inner ++ [.endTag tag])) ∧
    unparsedSerialize ⟨[], attrs⟩ tag = [.empty tag attrs] := by
  refine ⟨?_, ?_, rfl⟩
  · unfold unparsedDeserialize
    rw [splitAtEnd_append_end tag inner rest hnoend]
    simp
  · intro hne
    unfold unparsedSerialize
    simp [hne]

/-- Witness for C6 at concrete inputs: capturing the content of
`<a k="v">x<b/></a>` records the attribute and both inner events, and
re-emitting the capture replays them verbatim. -/
theorem claim_C6_witness :
    unparsedDeserialize (byteStr "a") [(byteStr "k", byteStr "v")] false
        ([.text (byteStr "x"), .empty (byteStr "b") []] ++
          .endTag (byteStr "a") :: []) =
      (⟨[.text (byteStr "x"), .empty (byteStr "b") []],
        [(byteStr "k", byteStr "v")]⟩, []) ∧
    unparsedSerialize
        ⟨[.text (byteStr "x"), .empty (byteStr "b") []],
          [(byteStr "k", byteStr "v")]⟩ (byteStr "a") =
      .start (byteStr "a") [(byteStr "k", byteStr "v")] ::
        ([.text (byteStr "x"), .empty (byteStr "b") []] ++
          [.endTag (byteStr "a")]) := by
  have h := claim_C6 (byteStr "a") [(byteStr "k", byteStr "v")]
    [.text (byteStr "x"), .empty (byteStr "b") []] [] (by decide)
  exact ⟨h.1, h.2.1 (by decide)⟩

theorem flatten_split_of_mem {α β : Type} (g : α → List β) (a : α)
    (L : List α) (h : a ∈ L) :
    ∃ l r, (L.map g).flatten = l ++ g a ++ r := by
  obtain ⟨s, t, rfl⟩ := List.append_of_mem h
  refine ⟨(s.map g).flatten, (t.map g).flatten, ?_⟩
  simp

/-- Concrete schema for C3: one present child `c`, one untagged-struct
field whose nested serialization would write `<u/>`. -/
def c3ex : SerStruct :=
  { withNs := none, customNs := [], attrs := [], sfcs := [],
    children := [⟨byteStr "c", false, .plain, [.empty (byteStr "c") []]⟩],
    untagEnums := [], untagStructs := [⟨[.empty (byteStr "u") []]⟩],
    text := none }

/-- C3 counterexample: serializing a non-empty record with a present
untagged-struct field drops that field's content entirely — `<u/>` never
reaches the output, contradicting the claim that every
UntaggedStructChild field is emitted. -/
theorem claim_C3_counterexample :
    c3ex.untagStructs = [⟨[.empty (byteStr "u") []]⟩] ∧
    serializeStruct c3ex (byteStr "r") =
      [.start (byteStr "r") [], .empty (byteStr "c") [], .endTag (byteStr "r")] ∧
    ¬(Event.empty (byteStr "u") [] ∈ serializeStruct c3ex (byteStr "r")) := by
  exact ⟨rfl, rfl, by decide⟩

/-- C3 (amended): when serializing a non-empty record element, every
UntaggedEnumChild field's nested output (produced by invoking its
serialization with the empty tag) appears between the record's Start and
End events; UntaggedStructChild fields, however, are never serialized —
the output is identical with the untagged-struct bucket removed. -/
theorem claim_C3 (s : SerStruct) (tag : Bytes)
    (hne : serIsEmpty s = false) (htag : tag.isEmpty = false)
    (htext : s.text = none) :
    (∀ u ∈ s.untagEnums, ∃ l r,
      serializeStruct s tag =
        .start tag (buildSerAttrs s) :: (l ++ u.events ++ r) ++ [.endTag tag]) ∧
    serializeStruct s tag = serializeStruct { s with untagStructs := [] } tag := by
  constructor
  · intro u hu
    obtain ⟨l₀, r₀, hsplit⟩ :=
      flatten_split_of_mem (fun x => x.events) u s.untagEnums hu
    refine ⟨(s.sfcs.filterMap fun f =>
        if f.val then some (.empty f.name []) else none) ++
        ((s.children.filter fun c => !c.skipSerializing).map
          fun c => c.events).flatten ++ l₀, r₀, ?_⟩
    simp only [serializeStruct, serContent, hne, htag, htext,
      Bool.false_eq_true, if_false]
    rw [hsplit]
    simp [List.append_assoc]
  · rfl

/-- Concrete schema for the C3 witness: one untagged-enum field writing
`<v/>` and one untagged-struct field that would write `<u/>`. -/
def c3wit : SerStruct :=
  { withNs := none, customNs := [], attrs := [], sfcs := [],
    children := [], untagEnums := [⟨[.empty (byteStr "v") []]⟩],
    untagStructs := [⟨[.empty (byteStr "u") []]⟩], text := none }

/-- Witness for C3 at a concrete schema: the untagged-enum content
`<v/>` appears in the output, and removing the untagged-struct bucket
leaves the output unchanged. -/
theorem claim_C3_witness :
    (∃ l r, serializeStruct c3wit (byteStr "r") =
      .start (byteStr "r") (buildSerAttrs c3wit) ::
        (l ++ [Event.empty (byteStr "v") []] ++ r) ++ [.endTag (byteStr "r")]) ∧
    serializeStruct c3wit (byteStr "r") =
      serializeStruct { c3wit with untagStructs := [] } (byteStr "r") := by
  have h := claim_C3 c3wit (byteStr "r") (by decide) (by decide) rfl
  exact ⟨h.1 ⟨[Event.empty (byteStr "v") []]⟩ (by decide), h.2⟩

/-- Concrete schema for C5: an attribute equal to its default, a child
equal to its default, and a second, non-default child. -/
def c5ex : SerStruct :=
  { withNs := none, customNs := [],
    attrs := [⟨byteStr "age", .withDefault (byteStr "12") (byteStr "12")⟩],
    sfcs := [],
    children := [⟨byteStr "a", false, .withDefault true, [.empty (byteStr "a") []]⟩,
                 ⟨byteStr "b", false, .plain, [.empty (byteStr "b") []]⟩],
    untagEnums := [], untagStructs := [], text := none }

/-- C5 counterexample: the default-equal attribute `age` is elided, but
the default-equal *child* `a` is still written (the element is non-empty
because of `b`), contradicting the claim that default-equality elides
child fields. -/
theorem claim_C5_counterexample :
    serializeStruct c5ex (byteStr "r") =
      [.start (byteStr "r") [], .empty (byteStr "a") [],
       .empty (byteStr "b") [], .endTag (byteStr "r")] ∧
    (Event.empty (byteStr "a") [] ∈ serializeStruct c5ex (byteStr "r")) := by
  exact ⟨rfl, by decide⟩

/-- C5 (amended): default elision applies to attribute fields — an
attribute whose value equals its declared default is omitted and any
other value is emitted.  For child fields the default comparison feeds
only the element-emptiness computation: when the whole element is empty
it is written self-closing (eliding everything), but when the element is
non-empty every non-skipped child field is written, including one whose
value equals its default. -/
theorem claim_C5 (s : SerStruct) (tag : Bytes) :
    (∀ a ∈ s.attrs, ∀ dflt v, a.val = .withDefault dflt v →
      (dflt = v → serAttrPush a.val = none) ∧
      (dflt ≠ v → serAttrPush a.val = some v ∧ (a.name, v) ∈ buildSerAttrs s)) ∧
    (serIsEmpty s = true → serializeStruct s tag = [.empty tag (buildSerAttrs s)]) ∧
    (∀ c ∈ s.children, c.skipSerializing = false → serIsEmpty s = false →
      tag.isEmpty = false → s.text = none →
      ∃ l r, serializeStruct s tag =
        .start tag (buildSerAttrs s) :: (l ++ c.events ++ r) ++ [.endTag tag]) := by
  refine ⟨?_, ?_, ?_⟩
  · intro a ha dflt v hval
    constructor
    · intro heq
      rw [hval]
      simp [serAttrPush, heq]
    · intro hneq
      have hpush : serAttrPush a.val = some v := by
        rw [hval]
        simp [serAttrPush, hneq]
      refine ⟨hpush, ?_⟩
      unfold buildSerAttrs
      refine List.mem_append.mpr (Or.inr ?_)
      exact List.mem_filterMap.mpr ⟨a, ha, by rw [hpush]; rfl⟩
  · intro hemp
    simp [serializeStruct, hemp]
  · intro c hc hskip hne htag htext
    have hcf : c ∈ s.children.filter fun c => !c.skipSerializing :=
      List.mem_filter.mpr ⟨hc, by simp [hskip]⟩
    obtain ⟨l₀, r₀, hsplit⟩ :=
      flatten_split_of_mem (fun c => c.events) c
        (s.children.filter fun c => !c.skipSerializing) hcf
    refine ⟨(s.sfcs.filterMap fun f =>
        if f.val then some (.empty f.name []) else none) ++ l₀,
      r₀ ++ (s.untagEnums.map fun u => u.events).flatten, ?_⟩
    simp only [serializeStruct, serContent, hne, htag, htext,
      Bool.false_eq_true, if_false]
    rw [hsplit]
    simp [List.append_assoc]

/-- Witness for C5 at concrete inputs: the default-equal attribute of
`c5ex` pushes nothing, and the default-equal child `a` still appears in
the serialized output. -/
theorem claim_C5_witness :
    serAttrPush (SerAttrVal.withDefault (byteStr "12") (byteStr "12")) = none ∧
    ∃ l r, serializeStruct c5ex (byteStr "r") =
      .start (byteStr "r") (buildSerAttrs c5ex) ::
        (l ++ [Event.empty (byteStr "a") []] ++ r) ++ [.endTag (byteStr "r")] := by
  constructor
  · exact ((claim_C5 c5ex (byteStr "r")).1
      ⟨byteStr "age", .withDefault (byteStr "12") (byteStr "12")⟩ (by decide)
      (byteStr "12") (byteStr "12") rfl).1 rfl
  · exact (claim_C5 c5ex (byteStr "r")).2.2
      ⟨byteStr "a", false, .withDefault true, [.empty (byteStr "a") []]⟩
      (by decide) rfl (by decide) (by decide) rfl

theorem eqIgnoreAsciiCase_refl (a : Bytes) : eqIgnoreAsciiCase a a = true := by
  simp [eqIgnoreAsciiCase]

theorem lower_eq_of_ci {k k' : Bytes} (h : eqIgnoreAsciiCase k k' = true) :
    toAsciiLowercase k = toAsciiLowercase k' := by
  simpa [eqIgnoreAsciiCase] using h

theorem ci_left_congr {k k' : Bytes} (h : eqIgnoreAsciiCase k k' = true)
    (x : Bytes) : eqIgnoreAsciiCase k x = eqIgnoreAsciiCase k' x := by
  unfold eqIgnoreAsciiCase
  rw [lower_eq_of_ci h]

theorem attrKeyMatches_ci_form (f : AttrField) (k : Bytes) :
    attrKeyMatches f k =
      (eqIgnoreAsciiCase k f.name ||
        f.mapped.any fun m => eqIgnoreAsciiCase k m) := by
  rw [Bool.eq_iff_iff]
  simp only [attrKeyMatches, Bool.or_eq_true, List.any_eq_true, beq_iff_eq]
  constructor
  · rintro (((h | ⟨m, hm, hkm⟩) | h) | h)
    · subst h; exact Or.inl (eqIgnoreAsciiCase_refl _)
    · exact Or.inr ⟨m, hm, by rw [hkm]; exact eqIgnoreAsciiCase_refl _⟩
    · exact Or.inl h
    · exact Or.inr h
  · rintro (h | h)
    · exact Or.inl (Or.inr h)
    · exact Or.inr h

theorem attrKeyMatches_ci {k k' : Bytes} (h : eqIgnoreAsciiCase k k' = true)
    (f : AttrField) : attrKeyMatches f k = attrKeyMatches f k' := by
  rw [attrKeyMatches_ci_form, attrKeyMatches_ci_form, ci_left_congr h]
  congr 1
  exact congrArg f.mapped.any (funext fun m => ci_left_congr h m)

theorem processAttr_ci (s : DeSchema) (st : DeState) {k k' : Bytes}
    (v : Bytes) (h : eqIgnoreAsciiCase k k' = true)
    (hdeny : s.denyUnknown = false) :
    processAttr s st (k, v) = processAttr s st (k', v) := by
  unfold processAttr
  have hidx : listFindIdx (fun f => attrKeyMatches f k) s.attrs =
      listFindIdx (fun f => attrKeyMatches f k') s.attrs := by
    congr 1
    funext f
    exact attrKeyMatches_ci h f
  rw [hidx]
  cases listFindIdx (fun f => attrKeyMatches f k') s.attrs with
  | some i => rfl
  | none => simp [hdeny]

/-- Concrete schema for the C1 counterexample: one self-closing-marker
field named `a`. -/
def c1ex : DeSchema :=
  { roots := [], denyUnknown := false, attrs := [],
    sfcs := [⟨byteStr "a"⟩], children := [], untagEnums := [],
    untagStructs := [], hasTextField := false, textRequired := false }

/-- C1 counterexample: the self-closing-marker tag comparison is
byte-exact, not case-insensitive — `<a/>` sets the marker declared as
`a`, but `<A/>` (same name up to ASCII case) leaves it `false`. -/
theorem claim_C1_counterexample :
    eqIgnoreAsciiCase (byteStr "A") (byteStr "a") = true ∧
    deserializeStruct c1ex (byteStr "r") [] false
        [.empty (byteStr "a") [], .endTag (byteStr "r")] =
      .ok { initState c1ex with sfcVals := [true] } ∧
    deserializeStruct c1ex (byteStr "r") [] false
        [.empty (byteStr "A") [], .endTag (byteStr "r")] =
      .ok (initState c1ex) ∧
    (initState c1ex).sfcVals = [false] := by
  exact ⟨by decide, rfl, rfl, rfl⟩

/-- C1 (amended): only attribute-name lookups (and the root-tag check)
are ASCII case-insensitive during deserialization: attribute lists whose
keys agree up to ASCII case populate the fields identically, and the root
check cannot distinguish case-equal tags.  Element-tag comparisons (child
fields, self-closing markers, untagged dispatch, enum discriminators) are
byte-exact, as the counterexample shows. -/
theorem claim_C1 (s : DeSchema) (st : DeState)
    (al al' : List (Bytes × Bytes))
    (hlen : al.length = al'.length)
    (hci : (al.zip al').all
      (fun pq => eqIgnoreAsciiCase pq.1.1 pq.2.1 && pq.1.2 == pq.2.2) = true)
    (hdeny : s.denyUnknown = false) :
    (∀ t t', eqIgnoreAsciiCase t t' = true → rootCheck s t = rootCheck s t') ∧
    processAttrs s st al = processAttrs s st al' := by
  constructor
  · intro t t' hci'
    unfold rootCheck
    congr 1
    exact congrArg s.roots.any (funext fun r => by
      unfold eqIgnoreAsciiCase
      rw [lower_eq_of_ci hci'])
  · induction al generalizing al' st with
    | nil =>
      cases al' with
      | nil => rfl
      | cons _ _ => simp at hlen
    | cons kv al₁ ih =>
      cases al' with
      | nil => simp at hlen
      | cons kv' al₁' =>
        simp only [List.zip_cons_cons, List.all_cons, Bool.and_eq_true,
          beq_iff_eq] at hci
        obtain ⟨⟨hk, hv⟩, htail⟩ := hci
        obtain ⟨k, v⟩ := kv
        obtain ⟨k', v'⟩ := kv'
        simp only at hk hv
        subst hv
        show (processAttr s st (k, v)).bind _ = (processAttr s st (k', v)).bind _
        rw [processAttr_ci s st v hk hdeny]
        cases processAttr s st (k', v) with
        | error e => rfl
        | ok st' =>
          simp only [Except.bind]
          exact ih st' al₁' (by simpa using hlen) htail

/-- Concrete schema for the C1 witness: one attribute declared
`pigeon`. -/
def c1wit : DeSchema :=
  { roots := [], denyUnknown := false,
    attrs := [⟨byteStr "pigeon", [], .plain⟩],
    sfcs := [], children := [], untagEnums := [], untagStructs := [],
    hasTextField := false, textRequired := false }

/-- Witness for C1 at concrete inputs: `PiGeOn="x"` populates the fields
exactly like `pigeon="x"`. -/
theorem claim_C1_witness :
    processAttrs c1wit (initState c1wit) [(byteStr "PiGeOn", byteStr "x")] =
      processAttrs c1wit (initState c1wit) [(byteStr "pigeon", byteStr "x")] :=
  (claim_C1 c1wit (initState c1wit) [(byteStr "PiGeOn", byteStr "x")]
    [(byteStr "pigeon", byteStr "x")] rfl (by decide) rfl).2

theorem listFindIdx_eq_none_of_any_false {α : Type} (p : α → Bool)
    (l : List α) (h : l.any p = false) : listFindIdx p l = none := by
  induction l with
  | nil => rfl
  | cons a l' ih =>
    simp only [List.any_cons, Bool.or_eq_false_iff] at h
    unfold listFindIdx
    rw [h.1]
    simp only [Bool.false_eq_true, if_false]
    rw [ih h.2]
    rfl

theorem recordChild_no_match (s : DeSchema) (st : DeState) (n : Bytes)
    (attrs : List (Bytes × Bytes)) (inner : List Event)
    (h : matchesChildLike s n = false) :
    recordChild s st n attrs inner = .ok st := by
  simp only [matchesChildLike, Bool.or_eq_false_iff] at h
  obtain ⟨⟨h1, h2⟩, h3⟩ := h
  unfold recordChild
  rw [listFindIdx_eq_none_of_any_false _ _ h1,
    listFindIdx_eq_none_of_any_false _ _ h2,
    listFindIdx_eq_none_of_any_false _ _ h3]

/-- C2 (amended): with `deny_unknown = true` an undeclared *attribute*
always raises the unknown-field error naming it, and an undeclared child
tag raises it only when the record declares no child, untagged-enum or
untagged-struct field at all; a record that declares any child-like field
silently ignores unknown child tags even under `deny_unknown = true`
(the generated children match has a catch-all `_ => {}` arm that shadows
the unknown-field arms).  With `deny_unknown = false` unknown attributes
and children are always silently ignored. -/
theorem claim_C2 (s : DeSchema) (st : DeState) (tag k v n : Bytes)
    (attrs : List (Bytes × Bytes)) (rest : List Event) :
    ((s.attrs.any fun f => attrKeyMatches f k) = false →
      processAttr s st (k, v) =
        if s.denyUnknown then .error (.unknownField k) else .ok st) ∧
    (hasChildLike s = false →
      (s.sfcs.any fun f => n == f.name) = false →
      (deLoop s tag st (.empty n attrs :: rest) =
        if s.denyUnknown then .error (.unknownField n)
        else deLoop s tag st rest) ∧
      (deLoop s tag st (.start n attrs :: rest) =
        if s.denyUnknown then .error (.unknownField n)
        else deLoop s tag st rest)) ∧
    (hasChildLike s = true →
      (s.sfcs.any fun f => n == f.name) = false →
      matchesChildLike s n = false →
      deLoop s tag st (.empty n attrs :: rest) = deLoop s tag st rest ∧
      deLoop s tag st (.start n attrs :: rest) = deLoop s tag st rest) := by
  refine ⟨?_, ?_, ?_⟩
  · intro hunk
    unfold processAttr
    rw [listFindIdx_eq_none_of_any_false _ _ hunk]
  · intro hnc hsfc
    constructor
    · rw [deLoop_empty, listFindIdx_eq_none_of_any_false _ _ hsfc]
      simp only [hnc, Bool.false_eq_true, if_false]
    · rw [deLoop_start]
      simp only [hnc, Bool.false_eq_true, if_false]
  · intro hc hsfc hm
    constructor
    · rw [deLoop_empty, listFindIdx_eq_none_of_any_false _ _ hsfc]
      simp only [hc, if_true]
      rw [recordChild_no_match s st n attrs [] hm]
    · rw [deLoop_start]
      simp only [hc, if_true, hm, Bool.false_eq_true, if_false]

/-- Concrete schema for C2: `deny_unknown = true`, one declared optional
child `a`, nothing else. -/
def c2ex : DeSchema :=
  { roots := [byteStr "pet"], denyUnknown := true, attrs := [],
    sfcs := [], children := [⟨byteStr "a", .optional, false⟩],
    untagEnums := [], untagStructs := [],
    hasTextField := false, textRequired := false }

/-- C2 counterexample: `c2ex` denies unknown fields and does not declare
a child `b`, yet deserializing `<pet><b/></pet>` succeeds — the unknown
child is silently ignored instead of raising the unknown-field error the
claim requires. -/
theorem claim_C2_counterexample :
    c2ex.denyUnknown = true ∧
    (c2ex.children.any fun f => byteStr "b" == f.name) = false ∧
    deserializeStruct c2ex (byteStr "pet") [] false
        [.empty (byteStr "b") [], .endTag (byteStr "pet")] =
      .ok (initState c2ex) := by
  exact ⟨rfl, by decide, rfl⟩

/-- Witness for C2 at concrete inputs: an undeclared attribute under
`deny_unknown = true` raises the unknown-field error naming it. -/
theorem claim_C2_witness :
    processAttr c2ex (initState c2ex) (byteStr "age", byteStr "1") =
      .error (.unknownField (byteStr "age")) := by
  have h := (claim_C2 c2ex (initState c2ex) (byteStr "pet") (byteStr "age")
      (byteStr "1") (byteStr "b") [] []).1 (by decide)
  simpa using h

theorem splitAtEnd_no_end (tag : Bytes) (evs : List Event)
    (h : evs.all (fun e => !(e == .endTag tag)) = true) :
    splitAtEnd tag evs = (evs, []) := by
  induction evs with
  | nil => rfl
  | cons e rest ih =>
    simp only [List.all_cons, Bool.and_eq_true] at h
    have hrec := ih h.2
    cases e with
    | endTag n =>
      have hne : (n == tag) = false := by
        by_contra hc
        rw [Bool.not_eq_false, beq_iff_eq] at hc
        subst hc
        simp at h
      rw [splitAtEnd_cons_endTag, if_neg (by simp [hne]), hrec]
    | start n a => rw [splitAtEnd_cons_start, hrec]
    | empty n a => rw [splitAtEnd_cons_empty, hrec]
    | text t => rw [splitAtEnd_cons_text, hrec]

/-- C8: end-of-stream before the closing tag is an implicit end — both
for the generated record deserializer (over streams without nested
`Start` captures, where the notion "events read so far" is unambiguous)
and for the `Unparsed` capture, running on a truncated stream produces
exactly the state produced by the same stream with the missing `End`
appended; no truncation-specific error exists. -/
theorem claim_C8 (s : DeSchema) (tag : Bytes) (st : DeState)
    (attrs : List (Bytes × Bytes)) (evs : List Event)
    (hnoend : evs.all (fun e => !(e == .endTag tag)) = true)
    (hnostart : evs.all
      (fun e => match e with | .start _ _ => false | _ => true) = true) :
    deLoop s tag st evs = deLoop s tag st (evs ++ [.endTag tag]) ∧
    (unparsedDeserialize tag attrs false evs).1 =
      (unparsedDeserialize tag attrs false (evs ++ [.endTag tag])).1 := by
  constructor
  · induction evs generalizing st with
    | nil =>
      rw [deLoop_nil, List.nil_append, deLoop_endTag, if_pos (by simp)]
    | cons e rest ih =>
      simp only [List.all_cons, Bool.and_eq_true] at hnoend hnostart
      have ihr := fun (u : DeState) => ih u hnoend.2 hnostart.2
      rw [List.cons_append]
      cases e with
      | endTag n =>
        have hne : (n == tag) = false := by
          by_contra hc
          rw [Bool.not_eq_false, beq_iff_eq] at hc
          subst hc
          simp at hnoend
        rw [deLoop_endTag, deLoop_endTag, hne]
        simp only [Bool.false_eq_true, if_false]
        exact ihr st
      | start n a => simp at hnostart
      | empty n a =>
        rw [deLoop_empty, deLoop_empty]
        cases listFindIdx (fun f => n == f.name) s.sfcs with
        | some i => exact ihr _
        | none =>
          simp only
          by_cases hc : hasChildLike s = true
          · simp only [hc, if_true]
            cases recordChild s st n a [] with
            | error e => rfl
            | ok st' => exact ihr st'
          · simp only [Bool.not_eq_true] at hc
            simp only [hc, Bool.false_eq_true, if_false]
            by_cases hd : s.denyUnknown = true
            · simp [hd]
            · simp only [Bool.not_eq_true] at hd
              simp only [hd, Bool.false_eq_true, if_false]
              exact ihr st
      | text t =>
        rw [deLoop_text, deLoop_text]
        by_cases hc : hasChildLike s = true
        · simp only [hc, if_true]
          exact ihr _
        · simp only [Bool.not_eq_true] at hc
          simp only [hc, Bool.false_eq_true, if_false]
          by_cases ht : s.hasTextField = true
          · simp only [ht, if_true]
            exact ihr _
          · simp only [Bool.not_eq_true] at ht
            simp only [ht, Bool.false_eq_true, if_false]
            exact ihr st
  · unfold unparsedDeserialize
    rw [splitAtEnd_no_end tag evs hnoend,
      splitAtEnd_append_end tag evs [] hnoend]
    rfl

/-- Witness for C8 at concrete inputs: a truncated `<r><a/>` stream (no
closing `</r>`) deserializes exactly like `<r><a/></r>`, both for a
record with one list child and for the opaque capture. -/
theorem claim_C8_witness :
    deLoop
        { roots := [], denyUnknown := false, attrs := [], sfcs := [],
          children := [⟨byteStr "a", .vec, false⟩], untagEnums := [],
          untagStructs := [], hasTextField := false, textRequired := false }
        (byteStr "r") (initState
        { roots := [], denyUnknown := false, attrs := [], sfcs := [],
          children := [⟨byteStr "a", .vec, false⟩], untagEnums := [],
          untagStructs := [], hasTextField := false, textRequired := false })
        [.empty (byteStr "a") []] =
      deLoop
        { roots := [], denyUnknown := false, attrs := [], sfcs := [],
          children := [⟨byteStr "a", .vec, false⟩], untagEnums := [],
          untagStructs := [], hasTextField := false, textRequired := false }
        (byteStr "r") (initState
        { roots := [], denyUnknown := false, attrs := [], sfcs := [],
          children := [⟨byteStr "a", .vec, false⟩], untagEnums := [],
          untagStructs := [], hasTextField := false, textRequired := false })
        ([.empty (byteStr "a") []] ++ [.endTag (byteStr "r")]) :=
  (claim_C8 _ (byteStr "r") _ [] [.empty (byteStr "a") []]
    (by decide) (by decide)).1

/-- The accumulated entries of a slot (`Vec` contents; empty otherwise). -/
def Slot.entries : Slot α → List α
  | .many vs => vs
  | .one _ => []

theorem Slot.record_vec (sl : Slot α) (c : α) :
    sl.record .vec c = .many (sl.entries ++ [c]) := by
  cases sl <;> rfl

theorem Slot.record_nonvec (ar : DeArity) (har : ar ≠ .vec)
    (sl : Slot α) (c : α) : sl.record ar c = .one (some c) := by
  cases ar <;> cases sl <;> first | rfl | exact absurd rfl har

theorem listFindIdx_eq_some_of {α : Type} (p : α → Bool) (l : List α)
    (i : Nat) (a : α) (hi : l[i]? = some a) (hpa : p a = true)
    (hbefore : ((l.take i).any p) = false) : listFindIdx p l = some i := by
  induction l generalizing i with
  | nil => simp at hi
  | cons b l' ih =>
    cases i with
    | zero =>
      rw [List.getElem?_cons_zero, Option.some_inj] at hi
      subst hi
      unfold listFindIdx
      rw [hpa]
      rfl
    | succ i' =>
      rw [List.getElem?_cons_succ] at hi
      simp only [List.take_succ_cons, List.any_cons, Bool.or_eq_false_iff]
        at hbefore
      unfold listFindIdx
      rw [hbefore.1]
      simp only [Bool.false_eq_true, if_false]
      rw [ih i' hi hbefore.2]
      rfl

theorem listFindIdx_imp {α : Type} (p : α → Bool) (l : List α) (j : Nat)
    (h : listFindIdx p l = some j) : ∃ b, l[j]? = some b ∧ p b = true := by
  induction l generalizing j with
  | nil => simp [listFindIdx] at h
  | cons a l' ih =>
    unfold listFindIdx at h
    by_cases hpa : p a = true
    · rw [if_pos hpa] at h
      rw [Option.some_inj] at h
      subst h
      exact ⟨a, List.getElem?_cons_zero, hpa⟩
    · rw [if_neg hpa] at h
      cases hrec : listFindIdx p l' with
      | none => rw [hrec] at h; simp at h
      | some j' =>
        rw [hrec] at h
        simp at h
        subst h
        obtain ⟨b, hb, hpb⟩ := ih j' hrec
        exact ⟨b, by rw [List.getElem?_cons_succ]; exact hb, hpb⟩

theorem listModify_getElem_ne {α : Type} (f : α → α) (i j : Nat)
    (l : List α) (h : j ≠ i) : (listModify f j l)[i]? = l[i]? := by
  induction l generalizing i j with
  | nil => simp [listModify]
  | cons a l' ih =>
    cases j with
    | zero =>
      cases i with
      | zero => exact absurd rfl h
      | succ i' =>
        simp only [listModify]
        rw [List.getElem?_cons_succ, List.getElem?_cons_succ]
    | succ j' =>
      cases i with
      | zero =>
        simp only [listModify]
        rw [List.getElem?_cons_zero, List.getElem?_cons_zero]
      | succ i' =>
        simp only [listModify]
        rw [List.getElem?_cons_succ, List.getElem?_cons_succ]
        exact ih i' j' (fun he => h (by rw [he]))

theorem listModify_getElem_self {α : Type} (f : α → α) (i : Nat)
    (l : List α) : (listModify f i l)[i]? = (l[i]?).map f := by
  induction l generalizing i with
  | nil => simp [listModify]
  | cons a l' ih =>
    cases i with
    | zero =>
      simp only [listModify]
      rw [List.getElem?_cons_zero, List.getElem?_cons_zero]
      rfl
    | succ i' =>
      simp only [listModify]
      rw [List.getElem?_cons_succ, List.getElem?_cons_succ]
      exact ih i'

theorem listGetD_of_getElem? {α : Type} (l : List α) (i : Nat) (a d : α)
    (h : l[i]? = some a) : l.getD i d = a := by
  simp [List.getD_eq_getElem?_getD, h]

/-- The state after recording one child occurrence at field index `i`. -/
def recordAt (ar : DeArity) (a : List (Bytes × Bytes)) (inner : List Event)
    (i : Nat) (st : DeState) : DeState :=
  { st with childVals :=
      listModify (fun sl => sl.record ar ⟨a, inner⟩) i st.childVals }

theorem recordChild_childVals_match (s : DeSchema) (st : DeState)
    (n : Bytes) (a : List (Bytes × Bytes)) (inner : List Event)
    (i : Nat) (f : ChildField)
    (hj : listFindIdx (fun g => n == g.name) s.children = some i)
    (hi : s.children[i]? = some f) :
    recordChild s st n a inner = .ok (recordAt f.arity a inner i st) := by
  unfold recordChild recordAt
  rw [hj]
  simp only [listGetD_of_getElem? s.children i f ⟨[], .scalar, false⟩ hi]

theorem recordChild_childVals_preserved (s : DeSchema) (st : DeState)
    (n : Bytes) (a : List (Bytes × Bytes)) (inner : List Event)
    (hus : s.untagStructs = []) (i : Nat)
    (hnm : listFindIdx (fun g => n == g.name) s.children ≠ some i) :
    ∃ st', recordChild s st n a inner = .ok st' ∧
      st'.childVals[i]? = st.childVals[i]? := by
  unfold recordChild
  cases hj : listFindIdx (fun g => n == g.name) s.children with
  | some j =>
    have hji : j ≠ i := fun he => hnm (by rw [hj, he])
    exact ⟨_, rfl, listModify_getElem_ne _ i j st.childVals hji⟩
  | none =>
    cases hu : listFindIdx (fun f => listContainsBytes f.tags n) s.untagEnums with
    | some j => exact ⟨_, rfl, rfl⟩
    | none =>
      rw [hus]
      exact ⟨st, rfl, rfl⟩

/-- Specification of a child field's final slot after one element's
content: for `Vec` arity, one appended entry per matching occurrence in
document order; for the other arities, the last matching occurrence (or
the untouched slot when the tag never occurred). -/
def childSlotSpec (ar : DeArity) (sl₀ : Slot Capture)
    (ms : List (List (Bytes × Bytes))) : Slot Capture :=
  if ar = .vec then
    .many (sl₀.entries ++ ms.map fun a => ⟨a, []⟩)
  else
    match ms.getLast? with
    | some a => .one (some ⟨a, []⟩)
    | none => sl₀

theorem childSlotSpec_step (ar : DeArity) (sl₀ : Slot Capture)
    (a : List (Bytes × Bytes)) (ms : List (List (Bytes × Bytes))) :
    childSlotSpec ar (sl₀.record ar ⟨a, []⟩) ms =
      childSlotSpec ar sl₀ (a :: ms) := by
  by_cases har : ar = .vec
  · subst har
    unfold childSlotSpec
    rw [Slot.record_vec]
    simp [Slot.entries]
  · unfold childSlotSpec
    rw [if_neg har, if_neg har]
    cases ms with
    | nil =>
      simp only [List.getLast?_nil, List.getLast?_singleton]
      rw [Slot.record_nonvec ar har]
    | cons b ms' =>
      rw [List.getLast?_cons_cons]
      cases hg : (b :: ms').getLast? with
      | some x => rfl
      | none =>
        rw [List.getLast?_eq_none_iff] at hg
        simp at hg

/-- C7: inside one element's content, a List(`Vec`)-arity child field
accumulates one entry per occurrence of its declared tag, in document
order, while a `Scalar`, `Optional` or `Boxed` field is overwritten on
each occurrence so that the last one wins.  Stated over streams of
self-contained (`Empty`) child events followed by the element's `End`;
the field examined must be the first child field with its tag and not be
shadowed by a self-closing marker or untagged-struct dispatch. -/
theorem claim_C7 (s : DeSchema) (tag : Bytes) (st : DeState)
    (ps : List (Bytes × List (Bytes × Bytes)))
    (i : Nat) (f : ChildField) (sl₀ : Slot Capture)
    (hsfc : s.sfcs = [])
    (hus : s.untagStructs = [])
    (hi : s.children[i]? = some f)
    (hfirst : ((s.children.take i).any fun g => f.name == g.name) = false)
    (hslot : st.childVals[i]? = some sl₀)
    (hmany : f.arity = .vec → ∃ vs, sl₀ = .many vs) :
    ∃ st', deLoop s tag st
        ((ps.map fun p => Event.empty p.1 p.2) ++ [.endTag tag]) = .ok st' ∧
      st'.childVals[i]? =
        some (childSlotSpec f.arity sl₀
          ((ps.filter fun p => p.1 == f.name).map fun p => p.2)) := by
  have hcl : hasChildLike s = true := by
    unfold hasChildLike
    cases hch : s.children with
    | nil => rw [hch] at hi; simp at hi
    | cons _ _ => simp
  induction ps generalizing st sl₀ with
  | nil =>
    refine ⟨st, ?_, ?_⟩
    · simp only [List.map_nil, List.nil_append]
      rw [deLoop_endTag, if_pos (by simp)]
    · rw [hslot]
      congr 1
      by_cases har : f.arity = .vec
      · unfold childSlotSpec
        rw [if_pos har]
        obtain ⟨vs, hvs⟩ := hmany har
        subst hvs
        simp [Slot.entries]
      · simp [childSlotSpec, har]
  | cons p ps' ih =>
    simp only [List.map_cons, List.cons_append]
    rw [deLoop_empty, hsfc]
    simp only [listFindIdx]
    by_cases hp : (p.1 == f.name) = true
    · have hp' : p.1 = f.name := by simpa using hp
      have hfind : listFindIdx (fun g => p.1 == g.name) s.children = some i := by
        refine listFindIdx_eq_some_of _ _ i f hi (by rw [hp']; simp) ?_
        rw [hp']
        exact hfirst
      rw [hcl]
      simp only [if_true]
      rw [recordChild_childVals_match s st p.1 p.2 [] i f hfind hi]
      have hslot' : (recordAt f.arity p.2 [] i st).childVals[i]? =
          some (sl₀.record f.arity ⟨p.2, []⟩) := by
        unfold recordAt
        rw [listModify_getElem_self, hslot]
        rfl
      have hmany' : f.arity = .vec →
          ∃ vs, sl₀.record f.arity ⟨p.2, []⟩ = .many vs := by
        intro har
        rw [har, Slot.record_vec]
        exact ⟨_, rfl⟩
      obtain ⟨st', hrun, hval⟩ := ih (recordAt f.arity p.2 [] i st)
        (sl₀.record f.arity ⟨p.2, []⟩) hslot' hmany'
      refine ⟨st', hrun, ?_⟩
      rw [hval]
      congr 1
      rw [List.filter_cons, if_pos hp]
      simp only [List.map_cons]
      exact childSlotSpec_step f.arity sl₀ p.2 _
    · have hnm : listFindIdx (fun g => p.1 == g.name) s.children ≠ some i := by
        intro he
        obtain ⟨b, hb, hpb⟩ := listFindIdx_imp _ _ i he
        rw [hi] at hb
        rw [Option.some_inj] at hb
        subst hb
        exact hp hpb
      obtain ⟨st₁, heq, hpres⟩ :=
        recordChild_childVals_preserved s st p.1 p.2 [] hus i hnm
      rw [hcl]
      simp only [if_true]
      rw [heq]
      obtain ⟨st', hrun, hval⟩ := ih st₁ sl₀ (by rw [hpres]; exact hslot) hmany
      refine ⟨st', hrun, ?_⟩
      rw [hval]
      congr 2
      rw [List.filter_cons, if_neg (by simp [hp])]

/-- Witness for C7 at concrete inputs: over
`<a k="1"/><b/><a k="2"/></r>` a `Vec`-arity child `a` collects both
occurrences in document order. -/
theorem claim_C7_witness :
    ∃ st', deLoop
        { roots := [], denyUnknown := false, attrs := [], sfcs := [],
          children := [⟨byteStr "a", .vec, false⟩], untagEnums := [],
          untagStructs := [], hasTextField := false, textRequired := false }
        (byteStr "r") (initState
        { roots := [], denyUnknown := false, attrs := [], sfcs := [],
          children := [⟨byteStr "a", .vec, false⟩], untagEnums := [],
          untagStructs := [], hasTextField := false, textRequired := false })
        (([(byteStr "a", [(byteStr "k", byteStr "1")]),
           (byteStr "b", []),
           (byteStr "a", [(byteStr "k", byteStr "2")])].map
          fun p => Event.empty p.1 p.2) ++ [.endTag (byteStr "r")]) = .ok st' ∧
      st'.childVals[0]? =
        some (childSlotSpec .vec (.many [])
          (([(byteStr "a", [(byteStr "k", byteStr "1")]),
             (byteStr "b", []),
             (byteStr "a", [(byteStr "k", byteStr "2")])].filter
            fun p => p.1 == byteStr "a").map fun p => p.2)) :=
  claim_C7 _ (byteStr "r") _
    [(byteStr "a", [(byteStr "k", byteStr "1")]), (byteStr "b", []),
     (byteStr "a", [(byteStr "k", byteStr "2")])]
    0 ⟨byteStr "a", .vec, false⟩ (.many [])
    rfl rfl rfl (by decide) rfl (fun _ => ⟨[], rfl⟩)

end Xmlserde
